import Mathlib

/-!
Verification of the MedScribe rule-based medical summarizer
(`src/utils/text_processor.py` and `src/utils/summarizer.py`).

Strings are modelled as `List Char` (`Str`).  Every function is a direct
shallow embedding of the corresponding Python function; the regular
expressions of the source are hand-compiled to explicit scanners whose
backtracking behaviour has been traced by hand (each such definition has a
comment recording the regex it implements).  All recursion is structural so
that every definition reduces inside the kernel (`decide` / `rfl`).
-/

/-- Python strings, modelled as lists of characters. -/
abbrev Str := List Char

/-- Python `\s` (`re` whitespace class): space, tab, newline, CR, VT, FF. -/
def isSpaceC (c : Char) : Bool :=
  c = ' ' || c = '\t' || c = '\n' || c = '\r' || c = '\x0b' || c = '\x0c'

/-- Python `\w` word characters (ASCII fragment): letters, digits, underscore. -/
def isWordChar (c : Char) : Bool :=
  c.isAlphanum || c = '_'

/-- ASCII letter test (used for generic lemmas about literal patterns). -/
def isLetterB (c : Char) : Bool :=
  (65 ≤ c.toNat && c.toNat ≤ 90) || (97 ≤ c.toNat && c.toNat ≤ 122)

/-- Python's `string.punctuation`. -/
def pyPunctuation : List Char :=
  ['!', '\x22', '#', '$', '%', '&', '\x27', '(', ')', '*', '+', ',', '-', '.',
   '/', ':', ';', '<', '=', '>', '?', '@', '[', '\\', ']', '^', '_', '\x60',
   '\x7b', '|', '\x7d', '~']

/-- The punctuation class `[,.;:!?]` of `_clean_punctuation`. -/
def punctCls : List Char := [',', '.', ';', ':', '!', '?']

/-- The sentence-splitting class `[.!?]` of the summarizer. -/
def sentCls : List Char := ['.', '!', '?']

/-- Characters kept by `clean_text`'s OCR-artifact filter
`[^\w\s\.,;:!?\-\(\)\/]` (besides word characters and whitespace). -/
def allowedPunct : List Char := ['.', ',', ';', ':', '!', '?', '-', '(', ')', '/']

/-- ASCII lower-casing on character codes (Python `str.lower` restricted to
ASCII, which is all the source's tables use). -/
def lowNat (n : Nat) : Nat := if 65 ≤ n && n ≤ 90 then n + 32 else n

/-- ASCII lower-casing of a character. -/
def toLowerCh (c : Char) : Char :=
  if 65 ≤ c.toNat && c.toNat ≤ 90 then Char.ofNat (c.toNat + 32) else c

/-- Python `str.lower`. -/
def toLowerS (s : Str) : Str := s.map toLowerCh

/-- Case-insensitive character comparison (`re.IGNORECASE`). -/
def charEqCI (c d : Char) : Bool := lowNat c.toNat == lowNat d.toNat

/-- Exact prefix test. -/
def strStarts : Str → Str → Bool
  | [], _ => true
  | _ :: _, [] => false
  | c :: p, d :: s => c = d && strStarts p s

/-- Case-insensitive prefix test. -/
def strStartsCI : Str → Str → Bool
  | [], _ => true
  | _ :: _, [] => false
  | c :: p, d :: s => charEqCI c d && strStartsCI p s

/-- Leftmost-position scan: try the matcher at every suffix, left to right
(the search strategy of `re.search`). -/
def scanFor (m : Str → Option Str) : Str → Option Str
  | [] => none
  | s@(_ :: r) =>
    match m s with
    | some c => some c
    | none => scanFor m r

/-- A matcher that requires the case-insensitive literal `lit` and hands the
remainder to `cont`. -/
def litMatcher (lit : Str) (cont : Str → Option Str) (s : Str) : Option Str :=
  if strStartsCI lit s then cont (s.drop lit.length) else none

/-- Substring test (Python `in`), case-sensitive. -/
def containsSub (pat : Str) (s : Str) : Bool :=
  (scanFor (litMatcher pat (fun _ => some [])) s).isSome || pat.isEmpty

/-- Python `str.strip()` (left part). -/
def trimL (s : Str) : Str := s.dropWhile isSpaceC

/-- Python `str.strip()` (right part). -/
def trimR (s : Str) : Str := (s.reverse.dropWhile isSpaceC).reverse

/-- Python `str.strip()`. -/
def trim (s : Str) : Str := trimR (trimL s)

/-- Python `str.strip(string.punctuation)`. -/
def stripPyPunct (s : Str) : Str :=
  ((s.dropWhile (pyPunctuation.contains ·)).reverse.dropWhile
      (pyPunctuation.contains ·)).reverse

/-- Python `str.split()` (split on whitespace runs, dropping empties):
accumulate the current word, flush at whitespace. -/
def splitWsAux : Str → Str → List Str
  | acc, [] => if acc.isEmpty then [] else [acc.reverse]
  | acc, c :: r =>
    if isSpaceC c then
      if acc.isEmpty then splitWsAux [] r else acc.reverse :: splitWsAux [] r
    else splitWsAux (c :: acc) r

/-- Python `str.split()`. -/
def splitWs (s : Str) : List Str := splitWsAux [] s

/-- Python `sep.join(l)`. -/
def joinSep (sep : Str) : List Str → Str
  | [] => []
  | [x] => x
  | x :: l => x ++ sep ++ joinSep sep l

/-- Python `str.split('.')` (every single dot is a separator). -/
def splitDot : Str → List Str
  | [] => [[]]
  | c :: r =>
    if c = '.' then [] :: splitDot r
    else
      match splitDot r with
      | [] => [[c]]
      | h :: t => (c :: h) :: t

/-- `re.split(r'[.!?]+', s)`: split on maximal runs of sentence punctuation.
The flag records whether we are currently inside a punctuation run. -/
def splitPunctAux : Bool → Str → List Str
  | _, [] => [[]]
  | inRun, c :: r =>
    if sentCls.contains c then
      if inRun then splitPunctAux true r
      else [] :: splitPunctAux true r
    else
      match splitPunctAux false r with
      | [] => [[c]]
      | h :: t => (c :: h) :: t

/-- `re.split(r'[.!?]+', s)`. -/
def splitPunct (s : Str) : List Str := splitPunctAux false s

/-- Python `str.title()`: upper-case every cased character that follows a
non-alphabetic character, lower-case the others. -/
def pyTitleAux : Bool → Str → Str
  | _, [] => []
  | prevAlpha, c :: r =>
    if c.isAlpha then
      (if prevAlpha then toLowerCh c else c.toUpper) :: pyTitleAux true r
    else c :: pyTitleAux false r

/-- Python `str.title()`. -/
def pyTitle (s : Str) : Str := pyTitleAux false s

/-! ## TextProcessor (`src/utils/text_processor.py`) -/

/-- `TextProcessor.medical_abbreviations` (keys are lower-case). -/
def medical_abbreviations : List (Str × Str) :=
  [("pt".data, "patient".data),
   ("pts".data, "patients".data),
   ("hx".data, "history".data),
   ("dx".data, "diagnosis".data),
   ("tx".data, "treatment".data),
   ("rx".data, "prescription".data),
   ("sx".data, "symptoms".data),
   ("f/u".data, "follow-up".data),
   ("w/".data, "with".data),
   ("w/o".data, "without".data),
   ("c/o".data, "complains of".data),
   ("r/o".data, "rule out".data),
   ("sob".data, "shortness of breath".data),
   ("cp".data, "chest pain".data),
   ("bp".data, "blood pressure".data),
   ("hr".data, "heart rate".data),
   ("rr".data, "respiratory rate".data),
   ("temp".data, "temperature".data),
   ("wbc".data, "white blood cell count".data),
   ("rbc".data, "red blood cell count".data),
   ("hgb".data, "hemoglobin".data),
   ("hct".data, "hematocrit".data),
   ("bun".data, "blood urea nitrogen".data),
   ("cr".data, "creatinine".data),
   ("na".data, "sodium".data),
   ("k".data, "potassium".data),
   ("cl".data, "chloride".data),
   ("co2".data, "carbon dioxide".data),
   ("mg".data, "magnesium".data),
   ("po".data, "by mouth".data),
   ("iv".data, "intravenous".data),
   ("im".data, "intramuscular".data),
   ("bid".data, "twice daily".data),
   ("tid".data, "three times daily".data),
   ("qid".data, "four times daily".data),
   ("qd".data, "once daily".data),
   ("prn".data, "as needed".data),
   ("hs".data, "at bedtime".data),
   ("ac".data, "before meals".data),
   ("pc".data, "after meals".data)]

/-- `TextProcessor.section_headers`. -/
def section_headers : List Str :=
  ["chief complaint".data, "history of present illness".data,
   "past medical history".data, "medications".data, "allergies".data,
   "social history".data, "family history".data, "review of systems".data,
   "physical examination".data, "assessment".data, "plan".data,
   "discharge summary".data, "impression".data, "recommendations".data,
   "procedures".data, "laboratory results".data, "imaging".data,
   "vital signs".data]

/-- `re.sub(r'\s+', ' ', text.strip())`: whitespace runs collapse to single
spaces.  The flag records whether the previous character was whitespace. -/
def collapseAux : Bool → Str → Str
  | _, [] => []
  | pw, c :: r =>
    if isSpaceC c then
      if pw then collapseAux true r else ' ' :: collapseAux true r
    else c :: collapseAux false r

/-- Whitespace normalization step of `clean_text`. -/
def collapseWs (s : Str) : Str := collapseAux false (trim s)

/-- `re.sub(r'[^\w\s\.,;:!?\-\(\)\/]', '', text)`. -/
def stripChars (s : Str) : Str :=
  s.filter (fun c => isWordChar c || isSpaceC c || allowedPunct.contains c)

/-- Association lookup in a constant table. -/
def tableLookup (tbl : List (Str × Str)) (k : Str) : Option Str :=
  (tbl.find? (fun p => p.fst == k)).map (·.snd)

/-- One word of `TextProcessor._expand_abbreviations`: look up the
lower-cased, punctuation-stripped stem; on a hit, the expansion plus the
word's punctuation characters. -/
def expandWord (w : Str) : Str :=
  let cw := stripPyPunct (toLowerS w)
  match tableLookup medical_abbreviations cw with
  | some exp => exp ++ w.filter (pyPunctuation.contains ·)
  | none => w

/-- `TextProcessor._expand_abbreviations`. -/
def expand_abbreviations (s : Str) : Str :=
  joinSep [' '] ((splitWs s).map expandWord)

/-- `re.sub(r'\s*([,.;:!?])\s*', r'\1 ', text)`: a whitespace run followed by
one punctuation character (and its trailing whitespace) becomes the
punctuation character plus a single space.  Fuel bounds the number of
scanning steps (each consumes at least one character). -/
def punctSpF : Nat → Str → Str
  | 0, s => s
  | fuel + 1, s =>
    let ws := s.takeWhile isSpaceC
    match s.drop ws.length with
    | [] => s
    | p :: r2 =>
      if punctCls.contains p then
        p :: ' ' :: punctSpF fuel (r2.drop (r2.takeWhile isSpaceC).length)
      else ws ++ p :: punctSpF fuel r2

/-- Punctuation-spacing step of `_clean_punctuation`. -/
def punctSp (s : Str) : Str := punctSpF s.length s

/-- `re.sub(r'([,.;:!?]){2,}', r'\1', text)`: a run of two or more
punctuation characters collapses to its last character (the capture of the
last repetition).  The pending character is the last punctuation character
of the current run. -/
def collapsePunctAux : Option Char → Str → Str
  | none, [] => []
  | some p, [] => [p]
  | none, c :: r =>
    if punctCls.contains c then collapsePunctAux (some c) r
    else c :: collapsePunctAux none r
  | some p, c :: r =>
    if punctCls.contains c then collapsePunctAux (some c) r
    else p :: c :: collapsePunctAux none r

/-- Repeated-punctuation step of `_clean_punctuation`. -/
def collapsePunct (s : Str) : Str := collapsePunctAux none s

/-- Sentence-termination step of `_clean_punctuation`: split on `'.'`,
strip, force terminal punctuation, drop empties, re-join with spaces. -/
def sentenceFix (s : Str) : Str :=
  joinSep [' '] ((splitDot s).filterMap (fun piece =>
    let p := trim piece
    if p.isEmpty then none
    else if sentCls.contains (p.getLastD ' ') then some p
    else some (p ++ ['.'])))

/-- `TextProcessor._clean_punctuation`. -/
def clean_punctuation (s : Str) : Str := sentenceFix (collapsePunct (punctSp s))

/-! PHI redaction.  Each pattern is compiled to a matcher returning the
length of the match at the current position; `\b` before the first character
is supplied by the scanning substitution (`subPatternB`), which tracks
whether the previous character is a word character. -/

/-- Take exactly `n` characters satisfying `p`, returning the rest. -/
def exactRun (p : Char → Bool) : Nat → Str → Option Str
  | 0, s => some s
  | _ + 1, [] => none
  | n + 1, c :: r => if p c then exactRun p n r else none

/-- `\b` on the right edge: end of text or a non-word character. -/
def nonWordHead (s : Str) : Bool :=
  match s with
  | [] => true
  | c :: _ => !isWordChar c

/-- `\b\d{3}-\d{2}-\d{4}\b` (the leading `\b` is checked by the scanner). -/
def trySSN (s : Str) : Option Nat := do
  let r1 ← exactRun Char.isDigit 3 s
  let r2 ← match r1 with | '-' :: r => some r | _ => none
  let r3 ← exactRun Char.isDigit 2 r2
  let r4 ← match r3 with | '-' :: r => some r | _ => none
  let r5 ← exactRun Char.isDigit 4 r4
  if nonWordHead r5 then some (s.length - r5.length) else none

/-- `\b\d{3}[-.]?\d{3}[-.]?\d{4}\b`.  The optional separators are
deterministic: a separator character can never begin the following digit
group, so the greedy choice is forced. -/
def tryPhone (s : Str) : Option Nat := do
  let r1 ← exactRun Char.isDigit 3 s
  let r2 := match r1 with
            | c :: r => if c = '-' || c = '.' then r else r1
            | [] => r1
  let r3 ← exactRun Char.isDigit 3 r2
  let r4 := match r3 with
            | c :: r => if c = '-' || c = '.' then r else r3
            | [] => r3
  let r5 ← exactRun Char.isDigit 4 r4
  if nonWordHead r5 then some (s.length - r5.length) else none

/-- `\d{1,2}` followed by `/`: the digit run must have length 1 or 2 and be
followed by a slash (a longer run admits no backtracking escape). -/
def shortNumSlash (s : Str) : Option Str :=
  let d := s.takeWhile Char.isDigit
  if d.length = 1 || d.length = 2 then
    match s.drop d.length with
    | '/' :: r => some r
    | _ => none
  else none

/-- `\b\d{1,2}/\d{1,2}/\d{4}\b`. -/
def tryDate (s : Str) : Option Nat := do
  let r1 ← shortNumSlash s
  let r2 ← shortNumSlash r1
  let d := r2.takeWhile Char.isDigit
  if d.length = 4 && nonWordHead (r2.drop 4) then some (s.length - r2.length + 4)
  else none

/-- `\bMRN:?\s*\d+\b` with `re.IGNORECASE`. -/
def tryMRN (s : Str) : Option Nat := do
  if strStartsCI "MRN".data s then
    let r1 := s.drop 3
    let r2 := match r1 with | ':' :: r => r | _ => r1
    let r3 := r2.drop (r2.takeWhile isSpaceC).length
    let d := r3.takeWhile Char.isDigit
    if d.length ≠ 0 && nonWordHead (r3.drop d.length) then
      some (s.length - r3.length + d.length)
    else none
  else none

/-- `re.sub` with a pattern whose first character is a word character and
whose match consumes at least one character: scan left to right, keep track
of whether the previous character is a word character (for the leading
`\b`), replace non-overlapping matches, and continue after each match. -/
def subPatternB (tryM : Str → Option Nat) (repl : Str) :
    Nat → Bool → Str → Str
  | 0, _, s => s
  | _ + 1, _, [] => []
  | fuel + 1, prevW, s@(c :: r) =>
    match if prevW then none else tryM s with
    | some k =>
      repl ++ subPatternB tryM repl fuel
        (match (s.take k).getLast? with
         | some d => isWordChar d
         | none => prevW)
        (s.drop k)
    | none => c :: subPatternB tryM repl fuel (isWordChar c) r

/-- `TextProcessor._remove_phi_patterns`: the four substitutions, in source
order. -/
def remove_phi_patterns (s : Str) : Str :=
  let s1 := subPatternB trySSN "[SSN]".data s.length false s
  let s2 := subPatternB tryPhone "[PHONE]".data s1.length false s1
  let s3 := subPatternB tryDate "[DATE]".data s2.length false s2
  subPatternB tryMRN "[MRN]".data s3.length false s3

/-- `TextProcessor.clean_text`. -/
def clean_text (s : Str) : Str :=
  remove_phi_patterns (clean_punctuation (expand_abbreviations
    (stripChars (collapseWs s))))

/-! ## Section extraction (`TextProcessor.extract_sections`)

For each header the source builds the pattern
`rf'\b{header}:?\s*\n?(.*?)(?=\n\s*(?:{headers_pattern})|$)'`
(`headers_pattern` being `\bh1\b|\bh2\b|...`) and runs `re.search` with
`DOTALL | IGNORECASE` over `text.lower()`.  Hand-compiling that search:

* `re.search` takes the leftmost position `i` with a word boundary where
  the (lower-cased) header is a prefix;
* `:?` then `\s*\n?` consume an optional colon and the maximal whitespace
  run (the greedy `\s*` already eats any newlines, leaving nothing for
  `\n?`; no backtracking can occur because the rest of the pattern always
  succeeds: the lazy capture grows until `$`, which always matches);
* the lazy capture ends at the first position where the lookahead holds:
  either a `\n`, then a whitespace run, then some header of the vocabulary
  bounded by `\b` on both sides, or the `$` positions (end of text, or just
  before a terminal newline);
* the captured group is `str.strip`ped and kept only if non-empty. -/

/-- Length of the leading whitespace run. -/
def wsRunLen (s : Str) : Nat := (s.takeWhile isSpaceC).length

/-- Some vocabulary header matches at this suffix, with a trailing `\b`
(the leading `\b` holds automatically after whitespace). -/
def headerStartsAt (s : Str) : Bool :=
  section_headers.any (fun h => strStarts h s && nonWordHead (s.drop h.length))

/-- The lookahead `(?=\n\s*(?:headers)|$)` holds at this suffix of the
text.  The empty suffix is the end-of-text `$`; a lone `'\n'` is the
before-terminal-newline `$`. -/
def sectionBoundary (s : Str) : Bool :=
  match s with
  | [] => true
  | c :: r =>
    c = '\n' && (r.isEmpty || headerStartsAt (r.drop (wsRunLen r)))

/-- The lazy capture: everything up to the first suffix where the
lookahead holds. -/
def captureUpto : Str → Str
  | [] => []
  | c :: r => if sectionBoundary (c :: r) then [] else c :: captureUpto r

/-- Least `i` with `i₀ ≤ i < i₀ + n` and `P i` (left-to-right scan). -/
def leastFrom (P : Nat → Bool) : Nat → Nat → Option Nat
  | _, 0 => none
  | i, n + 1 => if P i then some i else leastFrom P (i + 1) n

/-- Character at index `i`. -/
def charAt (s : Str) (i : Nat) : Option Char := (s.drop i).head?

/-- Word boundary before position `i` of `s` (the position after a
non-word character, or the start of the text). -/
def wbBefore (s : Str) (i : Nat) : Bool :=
  match i with
  | 0 => true
  | j + 1 =>
    match charAt s j with
    | some c => !isWordChar c
    | none => false

/-- `\b{header}` matches at position `i` of the lower-cased text. -/
def headerOccAt (tl h : Str) (i : Nat) : Bool :=
  wbBefore tl i && strStarts h (tl.drop i)

/-- Position of the capture group: after the header, an optional colon and
the maximal whitespace run (`:?\s*\n?`). -/
def capStartIdx (tl h : Str) (i : Nat) : Nat :=
  let a := i + h.length
  let a2 := if charAt tl a = some ':' then a + 1 else a
  a2 + wsRunLen (tl.drop a2)

/-- The match of one header's pattern over the lower-cased text: the
stripped capture at the leftmost occurrence, if any. -/
def sectionFor (tl h : Str) : Option Str :=
  match leastFrom (headerOccAt tl h) 0 (tl.length + 1) with
  | none => none
  | some i => some (trim (captureUpto (tl.drop (capStartIdx tl h i))))

/-- `TextProcessor.extract_sections`: only non-empty captures are kept, in
header-vocabulary order (Python dict insertion order). -/
def extract_sections (text : Str) : List (Str × Str) :=
  let tl := toLowerS text
  section_headers.filterMap (fun h =>
    match sectionFor tl h with
    | some c => if c.isEmpty then none else some (h, c)
    | none => none)

/-- Lookup in the section map. -/
def lookupSec (m : List (Str × Str)) (k : Str) : Option Str :=
  (m.find? (fun p => p.fst == k)).map (·.snd)

/-! ## Entity extraction (`TextProcessor.extract_key_information`) -/

/-- `\s+\d+\s*{unit}\b` after the captured word of a medication pattern
(`\b(\w+)\s+\d+\s*mg\b` and friends).  All quantifiers are deterministic
here: each greedy class is disjoint from what may follow it. -/
def medTail (unit : Str) (s : Str) : Option Nat := do
  let ws := s.takeWhile isSpaceC
  if ws.length = 0 then none else
  let r1 := s.drop ws.length
  let d := r1.takeWhile Char.isDigit
  if d.length = 0 then none else
  let r2 := r1.drop d.length
  let r3 := r2.drop (r2.takeWhile isSpaceC).length
  if strStartsCI unit r3 && nonWordHead (r3.drop unit.length) then
    some (s.length - r3.length + unit.length)
  else none

/-- `\s+{unit}\b` after the captured word (`\b(\w+)\s+tablet\b` and
`capsule`). -/
def wordTail (unit : Str) (s : Str) : Option Nat := do
  let ws := s.takeWhile isSpaceC
  if ws.length = 0 then none else
  let r1 := s.drop ws.length
  if strStartsCI unit r1 && nonWordHead (r1.drop unit.length) then
    some (s.length - r1.length + unit.length)
  else none

/-- `re.findall` for `\b(\w+){tail}`: scan left to right, capture the
maximal word run when the tail matches, continue after each match
(non-overlapping), tracking the previous character's wordness for `\b`. -/
def medFindall (tail : Str → Option Nat) : Nat → Bool → Str → List Str
  | 0, _, _ => []
  | _ + 1, _, [] => []
  | fuel + 1, prevW, s@(c :: r) =>
    let w := s.takeWhile isWordChar
    if !prevW && w.length ≠ 0 then
      match tail (s.drop w.length) with
      | some k => w :: medFindall tail fuel true (s.drop (w.length + k))
      | none => medFindall tail fuel (isWordChar c) r
    else medFindall tail fuel (isWordChar c) r

/-- `TextProcessor.procedure_keywords` (local vocabulary of
`extract_key_information`). -/
def procedure_keywords : List Str :=
  ["catheterization".data, "angioplasty".data, "surgery".data, "biopsy".data,
   "endoscopy".data, "bronchoscopy".data, "colonoscopy".data,
   "echocardiogram".data, "CT scan".data, "MRI".data, "X-ray".data,
   "ultrasound".data, "blood transfusion".data, "dialysis".data]

/-- Extracted vital signs: at most one value each, in the source's
insertion order blood pressure, heart rate, temperature, respiratory
rate. -/
structure VitalSigns where
  blood_pressure : Option Str
  heart_rate : Option Str
  temperature : Option Str
  respiratory_rate : Option Str
deriving Repr, DecidableEq

/-- `ExtractedInfo`: the dict built by `extract_key_information`. -/
structure ExtractedInfo where
  medications : List Str
  procedures : List Str
  diagnoses : List Str
  vital_signs : VitalSigns
  recommendations : List Str
deriving Repr, DecidableEq

/-- `(\d+/\d+)` for the blood-pressure pattern. -/
def capBP (s : Str) : Option Str := do
  let d1 := s.takeWhile Char.isDigit
  if d1.length = 0 then none else
  match s.drop d1.length with
  | '/' :: r =>
    let d2 := r.takeWhile Char.isDigit
    if d2.length = 0 then none else some (d1 ++ '/' :: d2)
  | _ => none

/-- `(\d+)` for heart/respiratory rate. -/
def capNum (s : Str) : Option Str :=
  let d := s.takeWhile Char.isDigit
  if d.length = 0 then none else some d

/-- `(\d+\.?\d*)` for temperature. -/
def capTemp (s : Str) : Option Str :=
  let d := s.takeWhile Char.isDigit
  if d.length = 0 then none else
  match s.drop d.length with
  | '.' :: r => some (d ++ '.' :: r.takeWhile Char.isDigit)
  | _ => some d

/-- A vital-sign pattern `{lit}:?\s*{cap}` (no word boundaries in the
source patterns), searched over the lower-cased text. -/
def vitalMatcher (lit : Str) (cap : Str → Option Str) (s : Str) : Option Str :=
  if strStarts lit s then
    let r1 := s.drop lit.length
    let r2 := match r1 with | ':' :: r => r | _ => r1
    cap (r2.drop (r2.takeWhile isSpaceC).length)
  else none

/-- `TextProcessor.extract_key_information`. -/
def extract_key_information (text : Str) : ExtractedInfo :=
  let meds :=
    (medFindall (medTail "mg".data) text.length false text ++
     medFindall (medTail "mcg".data) text.length false text ++
     medFindall (wordTail "tablet".data) text.length false text ++
     medFindall (wordTail "capsule".data) text.length false text).map pyTitle
  let tl := toLowerS text
  let procs := procedure_keywords.filterMap (fun kw =>
    if containsSub (toLowerS kw) tl then some (pyTitle kw) else none)
  { medications := meds.dedup
    procedures := procs.dedup
    diagnoses := []
    vital_signs :=
      { blood_pressure := scanFor (vitalMatcher "bp".data capBP) tl
        heart_rate := scanFor (vitalMatcher "hr".data capNum) tl
        temperature := scanFor (vitalMatcher "temp".data capTemp) tl
        respiratory_rate := scanFor (vitalMatcher "rr".data capNum) tl }
    recommendations := [] }

/-! ## MedicalSummarizer (`src/utils/summarizer.py`)

The summarizer's lookup patterns all have the shape
`{literal}:?\s*([^.\n]+)` (or `{literal}\s+([^.\n]+)` after `diagnosed
with` / `because of`, with two lazy-gap patterns for
`discharge.*?instructions` and `came.*?because of`), searched with
`re.IGNORECASE`.  The greedy `\s*` before the capture backtracks: the
capture group starts at the latest position inside (or just after) the
whitespace run holding a character other than `.` and newline. -/

/-- Characters admissible in a `[^.\n]+` capture. -/
def notDotNL (c : Char) : Bool := !(c = '.' || c = '\n')

/-- Backtracking of the greedy `\s*` before `([^.\n]+)`: try the capture
start at offset `k`, then `k - 1`, ..., `0`. -/
def tryCapFrom (s : Str) : Nat → Option Str
  | 0 =>
    match s with
    | c :: _ => if notDotNL c then some (s.takeWhile notDotNL) else none
    | [] => none
  | k + 1 =>
    match s.drop (k + 1) with
    | c :: _ =>
      if notDotNL c then some ((s.drop (k + 1)).takeWhile notDotNL)
      else tryCapFrom s k
    | [] => tryCapFrom s k

/-- `\s*([^.\n]+)`. -/
def wsCapture (s : Str) : Option Str := tryCapFrom s (wsRunLen s)

/-- `\s+([^.\n]+)`: at least one whitespace character must remain consumed,
so the capture cannot start at offset 0. -/
def tryCapFrom1 (s : Str) : Nat → Option Str
  | 0 => none
  | k + 1 =>
    match s.drop (k + 1) with
    | c :: _ =>
      if notDotNL c then some ((s.drop (k + 1)).takeWhile notDotNL)
      else tryCapFrom1 s k
    | [] => tryCapFrom1 s k

/-- `\s+([^.\n]+)`. -/
def wsPlusCapture (s : Str) : Option Str := tryCapFrom1 s (wsRunLen s)

/-- `:?\s*([^.\n]+)`: the greedy `:?` consumes a colon when present; if the
rest then fails, the backtracked alternative starts the capture at the
colon itself (`':'` lies in `[^.\n]`), which always succeeds. -/
def afterColonCapture (s : Str) : Option Str :=
  match s with
  | ':' :: r =>
    match wsCapture r with
    | some c => some c
    | none => some (s.takeWhile notDotNL)
  | _ => wsCapture s

/-- First successful alternative (the source tries its pattern list in
order and returns the first match's stripped capture, even when the strip
empties it). -/
def firstSome : List (Option Str) → Option Str
  | [] => none
  | some x :: _ => some x
  | none :: l => firstSome l

/-- Lazy gap `.*?` (no DOTALL: the gap may not cross a newline) followed by
a literal and a continuation: try the shortest gap first. -/
def lazyGapScan (lit : Str) (cont : Str → Option Str) :
    Nat → Str → Option Str
  | _, [] => none
  | 0, _ => none
  | fuel + 1, s@(c :: r) =>
    match (if strStartsCI lit s then cont (s.drop lit.length) else none) with
    | some cap => some cap
    | none => if c = '\n' then none else lazyGapScan lit cont fuel r

/-- `[-\s]?up:?\s*([^.\n]+)` after the literal `follow` (the pattern
`follow[-\s]?up:?\s*([^.\n]+)`).  The greedy optional separator is tried
first; on failure the separator character can never begin `up`, so the
sole remaining alternative is the separator-less one. -/
def followUpCont (s : Str) : Option Str :=
  match
    (match s with
     | c :: r =>
       if (c = '-' || isSpaceC c) && strStartsCI "up".data r then
         afterColonCapture (r.drop 2)
       else none
     | [] => none)
  with
  | some cap => some cap
  | none =>
    if strStartsCI "up".data s then afterColonCapture (s.drop 2) else none

/-- `MedicalSummarizer.patient_translations`, in source (dict insertion)
order. -/
def patient_translations : List (Str × Str) :=
  [("myocardial infarction".data, "heart attack".data),
   ("hypertension".data, "high blood pressure".data),
   ("diabetes mellitus".data, "diabetes".data),
   ("cerebrovascular accident".data, "stroke".data),
   ("pneumonia".data, "lung infection".data),
   ("gastroenteritis".data, "stomach bug".data),
   ("urinary tract infection".data, "bladder infection".data),
   ("angina".data, "chest pain".data),
   ("arrhythmia".data, "irregular heartbeat".data),
   ("tachycardia".data, "fast heart rate".data),
   ("bradycardia".data, "slow heart rate".data),
   ("dyspnea".data, "trouble breathing".data),
   ("syncope".data, "fainting".data),
   ("edema".data, "swelling".data),
   ("hemorrhage".data, "bleeding".data),
   ("fracture".data, "broken bone".data),
   ("laceration".data, "cut".data),
   ("contusion".data, "bruise".data),
   ("antibiotic".data, "infection medicine".data),
   ("analgesic".data, "pain medicine".data),
   ("catheterization".data, "procedure to open blocked blood vessels".data),
   ("angioplasty".data, "procedure to open blocked blood vessels".data),
   ("stent".data, "small tube to keep blood vessels open".data),
   ("biopsy".data, "tissue sample test".data),
   ("CT scan".data, "detailed X-ray".data),
   ("MRI".data, "detailed body scan".data),
   ("echocardiogram".data, "heart ultrasound".data),
   ("endoscopy".data, "camera examination".data),
   ("prognosis".data, "outlook".data),
   ("acute".data, "sudden".data),
   ("chronic".data, "long-term".data)]

/-- `MedicalSummarizer._extract_diagnosis_info`: the four patterns in
priority order; the first matching pattern's capture is stripped and
returned (patterns after it are never tried). -/
def extract_diagnosis_info (text : Str) : Str :=
  ((firstSome
    [scanFor (litMatcher "diagnosis".data afterColonCapture) text,
     scanFor (litMatcher "diagnosed with".data wsPlusCapture) text,
     scanFor (litMatcher "impression".data afterColonCapture) text,
     scanFor (litMatcher "assessment".data afterColonCapture) text]).map
    trim).getD []

/-- `MedicalSummarizer._extract_treatment_info`. -/
def extract_treatment_info (text : Str) (key_info : ExtractedInfo) : Str :=
  match firstSome
    [scanFor (litMatcher "treatment".data afterColonCapture) text,
     scanFor (litMatcher "treated with".data wsPlusCapture) text,
     scanFor (litMatcher "plan".data afterColonCapture) text] with
  | some c => trim c
  | none =>
    if key_info.procedures.isEmpty then []
    else joinSep ", ".data (key_info.procedures.take 2)

/-- `MedicalSummarizer._extract_recommendations`. -/
def extract_recommendations (text : Str) : Str :=
  ((firstSome
    [scanFor (litMatcher "follow".data followUpCont) text,
     scanFor (litMatcher "recommendation".data afterColonCapture) text,
     scanFor (litMatcher "discharge".data
       (fun s => lazyGapScan "instructions".data afterColonCapture
         (s.length + 1) s)) text]).map trim).getD []

/-- `MedicalSummarizer._format_vitals` (dict insertion order is the
source's pattern order: blood pressure, heart rate, temperature,
respiratory rate). -/
def format_vitals (v : VitalSigns) : Str :=
  joinSep ", ".data (List.filterMap id
    [v.blood_pressure.map (fun x => "BP ".data ++ x),
     v.heart_rate.map (fun x => "HR ".data ++ x),
     v.temperature.map (fun x => "Temp ".data ++ x ++ "°F".data),
     v.respiratory_rate.map (fun x => "RR ".data ++ x)])

/-- Python dict truthiness of the vital-signs dict. -/
def vitalsNonempty (v : VitalSigns) : Bool :=
  v.blood_pressure.isSome || v.heart_rate.isSome ||
  v.temperature.isSome || v.respiratory_rate.isSome

/-- `SummaryOptions`: the `options` dict consumed by the summarizer. -/
structure SummaryOptions where
  length : Str
  include_medications : Bool
  include_procedures : Bool
  include_recommendations : Bool
deriving Repr, DecidableEq

/-- The sentence cap of `_adjust_summary_length`:
`{'short': 3, 'medium': 5, 'long': 8}.get(length, 5)`. -/
def maxSentencesDoctor (len : Str) : Nat :=
  if len = "short".data then 3
  else if len = "medium".data then 5
  else if len = "long".data then 8
  else 5

/-- The sentence cap of `_adjust_patient_summary`:
`{'short': 2, 'medium': 4, 'long': 6}.get(length, 4)`. -/
def maxSentencesPatient (len : Str) : Nat :=
  if len = "short".data then 2
  else if len = "medium".data then 4
  else if len = "long".data then 6
  else 4

/-- `[s.strip() for s in re.split(r'[.!?]+', summary) if s.strip()]`. -/
def cleanSentences (s : Str) : List Str :=
  ((splitPunct s).map trim).filter (fun x => !x.isEmpty)

/-- Sentence count of a summary (splitting on `.`, `!`, `?`). -/
def countSentences (s : Str) : Nat := (cleanSentences s).length

/-- `MedicalSummarizer._adjust_summary_length`. -/
def adjust_summary_length (summary : Str) (len : Str) : Str :=
  let sentences := cleanSentences summary
  let m := maxSentencesDoctor len
  if sentences.length > m then joinSep ". ".data (sentences.take m) ++ ['.']
  else summary

/-- `MedicalSummarizer._adjust_patient_summary` (including the final
`endswith('.')` fix-up). -/
def adjust_patient_summary (summary : Str) (len : Str) : Str :=
  let sentences := cleanSentences summary
  let m := maxSentencesPatient len
  let s2 :=
    if sentences.length > m then joinSep ". ".data (sentences.take m) ++ ['.']
    else summary
  if s2.getLastD ' ' = '.' then s2 else s2 ++ ['.']

/-- Whole-word case-insensitive substitution
`re.sub(r'\b{term}\b', repl, text, flags=re.IGNORECASE)` for a term that
begins and ends with a letter; matches are found left to right over the
original text and do not overlap. -/
def subWordAux (term repl : Str) : Nat → Bool → Str → Str
  | 0, _, s => s
  | _ + 1, _, [] => []
  | fuel + 1, prevW, s@(c :: r) =>
    if !prevW && strStartsCI term s && nonWordHead (s.drop term.length) then
      repl ++ subWordAux term repl fuel true (s.drop term.length)
    else c :: subWordAux term repl fuel (isWordChar c) r

/-- `MedicalSummarizer._translate_for_patients`: the substitutions applied
sequentially in table order. -/
def translate_for_patients (text : Str) : Str :=
  patient_translations.foldl
    (fun acc p => subWordAux p.fst p.snd acc.length false acc) text

/-- `MedicalSummarizer._extract_patient_reason`. -/
def extract_patient_reason (text : Str) : Str :=
  match firstSome
    [scanFor (litMatcher "chief complaint".data afterColonCapture) text,
     scanFor (litMatcher "presenting complaint".data afterColonCapture) text,
     scanFor (litMatcher "came".data
       (fun s => lazyGapScan "because of".data wsPlusCapture
         (s.length + 1) s)) text] with
  | some c =>
    "You came to the hospital because of ".data ++ toLowerS (trim c) ++ ['.']
  | none => "You came to the hospital for medical care.".data

/-- `MedicalSummarizer._extract_patient_diagnosis`. -/
def extract_patient_diagnosis (text : Str) : Str :=
  let d := extract_diagnosis_info text
  if d.isEmpty then []
  else "Tests and examinations showed that you have ".data ++ toLowerS d ++ ['.']

/-- `MedicalSummarizer._extract_patient_treatment`. -/
def extract_patient_treatment (text : Str) (key_info : ExtractedInfo) : Str :=
  let t := extract_treatment_info text key_info
  if t.isEmpty then []
  else "Doctors provided treatment including ".data ++ toLowerS t ++ ['.']

/-- `MedicalSummarizer._explain_medications_to_patient`. -/
def explain_medications_to_patient (medications : List Str) : Str :=
  if medications.isEmpty then []
  else if medications.length = 1 then
    "You have been given medicine called ".data ++ medications.headD [] ++
    " to help with your condition.".data
  else
    "You have been given medicines including ".data ++
    joinSep ", ".data (medications.take 3) ++
    " to help with your condition.".data

/-- `MedicalSummarizer._extract_patient_next_steps`. -/
def extract_patient_next_steps (text : Str) : Str :=
  let r := extract_recommendations text
  if r.isEmpty then "Please follow up with your doctor as recommended.".data
  else "Please ".data ++ toLowerS r

/-- The fixed doctor placeholder. -/
def doctorPlaceholder : Str :=
  "Unable to generate professional summary from the provided text.".data

/-- The fixed patient apology placeholder. -/
def patientPlaceholder : Str :=
  ("We are unable to create a simple summary of your medical report at " ++
   "this time. Please ask your doctor to explain your results.").data

/-- Final stage of `generate_doctor_summary`:
`return summary if summary else "Unable to generate ..."`. -/
def finalizeDoctor (summary : Str) : Str :=
  if summary.isEmpty then doctorPlaceholder else summary

/-- Final stage of `generate_patient_summary`:
`return summary if summary else "We are unable to ..."`. -/
def finalizePatient (summary : Str) : Str :=
  if summary.isEmpty then patientPlaceholder else summary

/-- `MedicalSummarizer.generate_doctor_summary`.  (The source also computes
`_extract_important_sentences(text, options['length'])` and discards the
result; the dead call is omitted here.) -/
def generate_doctor_summary (text : Str) (options : SummaryOptions) : Str :=
  let key_info := extract_key_information text
  let sections := extract_sections text
  let parts : List Str :=
    (match lookupSec sections "chief complaint".data with
     | some cc => ["**Chief Complaint**: ".data ++ cc.take 200 ++ "...".data]
     | none => []) ++
    (let d := extract_diagnosis_info text
     if d.isEmpty then [] else ["**Diagnosis**: ".data ++ d]) ++
    (let t := extract_treatment_info text key_info
     if t.isEmpty then [] else ["**Treatment**: ".data ++ t]) ++
    (if options.include_medications && !key_info.medications.isEmpty then
       ["**Medications**: ".data ++
        joinSep ", ".data (key_info.medications.take 5)]
     else []) ++
    (if options.include_procedures && !key_info.procedures.isEmpty then
       ["**Procedures**: ".data ++
        joinSep ", ".data (key_info.procedures.take 3)]
     else []) ++
    (if options.include_recommendations then
       (let r := extract_recommendations text
        if r.isEmpty then [] else ["**Follow-up**: ".data ++ r])
     else []) ++
    (if vitalsNonempty key_info.vital_signs then
       (let v := format_vitals key_info.vital_signs
        if v.isEmpty then [] else ["**Vital Signs**: ".data ++ v])
     else [])
  finalizeDoctor (adjust_summary_length (joinSep "\n\n".data parts) options.length)

/-- `MedicalSummarizer.generate_patient_summary`. -/
def generate_patient_summary (text : Str) (options : SummaryOptions) : Str :=
  let key_info := extract_key_information text
  let parts : List Str :=
    (let r := extract_patient_reason text
     if r.isEmpty then [] else [r]) ++
    (let d := extract_patient_diagnosis text
     if d.isEmpty then [] else [d]) ++
    (let t := extract_patient_treatment text key_info
     if t.isEmpty then [] else [t]) ++
    (if options.include_medications && !key_info.medications.isEmpty then
       (let m := explain_medications_to_patient key_info.medications
        if m.isEmpty then [] else [m])
     else []) ++
    (if options.include_recommendations then
       (let n := extract_patient_next_steps text
        if n.isEmpty then [] else [n])
     else [])
  finalizePatient
    (adjust_patient_summary (translate_for_patients (joinSep [' '] parts))
      options.length)

/-! ## Spec-side variants of the section extractor

`extract_sections_claimed` transcribes the specification sentence for the
section extractor: capture up to the next occurrence of *any* vocabulary
header, or end of text.  `extract_sections_amended` transcribes the
corrected sentence: capture up to the next position where a newline,
optional whitespace and a vocabulary header follow, or to the end of text
(also just before a terminal newline).  Both are written index-based, with
`leastFrom` expressing "leftmost" / "next". -/

/-- Claimed boundary: end of text, or any header of the vocabulary occurs
here (at word boundaries). -/
def claimedBoundary (tl : Str) (p : Nat) : Bool :=
  tl.length ≤ p || (wbBefore tl p && headerStartsAt (tl.drop p))

/-- Per-header match under the claimed reading. -/
def sectionForClaimed (tl h : Str) : Option Str :=
  match leastFrom (headerOccAt tl h) 0 (tl.length + 1) with
  | none => none
  | some i =>
    let cs := capStartIdx tl h i
    let e := (leastFrom (claimedBoundary tl) cs (tl.length + 1 - cs)).getD tl.length
    some (trim ((tl.drop cs).take (e - cs)))

/-- The section extractor as the claim describes it. -/
def extract_sections_claimed (text : Str) : List (Str × Str) :=
  let tl := toLowerS text
  section_headers.filterMap (fun h =>
    match sectionForClaimed tl h with
    | some c => if c.isEmpty then none else some (h, c)
    | none => none)

/-- Amended boundary: end of text; or a newline here followed (after an
optional whitespace run) by a vocabulary header at word boundaries, or by
the end of the text. -/
def amendedBoundary (tl : Str) (p : Nat) : Bool :=
  tl.length ≤ p ||
  (charAt tl p = some '\n' &&
   (tl.length ≤ p + 1 ||
    headerStartsAt ((tl.drop (p + 1)).drop (wsRunLen (tl.drop (p + 1))))))

/-- Per-header match under the amended reading. -/
def sectionForAmended (tl h : Str) : Option Str :=
  match leastFrom (headerOccAt tl h) 0 (tl.length + 1) with
  | none => none
  | some i =>
    let cs := capStartIdx tl h i
    let e := (leastFrom (amendedBoundary tl) cs (tl.length + 1 - cs)).getD tl.length
    some (trim ((tl.drop cs).take (e - cs)))

/-- The section extractor as the amended claim describes it. -/
def extract_sections_amended (text : Str) : List (Str × Str) :=
  let tl := toLowerS text
  section_headers.filterMap (fun h =>
    match sectionForAmended tl h with
    | some c => if c.isEmpty then none else some (h, c)
    | none => none)

/-- Occurrence of `pat` as a whole word (non-word characters or text edges
on both sides), scanning with the previous character's wordness. -/
def wholeWordAux (pat : Str) : Bool → Str → Bool
  | _, [] => false
  | prevW, s@(c :: r) =>
    (!prevW && strStarts pat s && nonWordHead (s.drop pat.length)) ||
    wholeWordAux pat (isWordChar c) r

/-- `pat` occurs in `s` as a whole word. -/
def containsWholeWord (pat : Str) (s : Str) : Bool :=
  wholeWordAux pat false s

/-- Head of a literal pattern is an ASCII letter (all the source's literal
patterns satisfy this; used by the whitespace-only-input lemmas). -/
def litHeadLetter (lit : Str) : Bool :=
  match lit with
  | c :: _ => isLetterB c
  | [] => false

/-! ## Lemmas: sentence splitting and the length caps -/

theorem splitPunctAux_ne_nil (b : Bool) (s : Str) : splitPunctAux b s ≠ [] := by
  induction s generalizing b with
  | nil => simp [splitPunctAux]
  | cons c r ih =>
    simp only [splitPunctAux]
    split
    · split
      · exact ih true
      · simp
    · cases h : splitPunctAux false r with
      | nil => exact absurd h (ih false)
      | cons hd tl => simp

theorem mem_dropWhileM {p : Char → Bool} {l : Str} {c : Char}
    (h : c ∈ l.dropWhile p) : c ∈ l := by
  induction l with
  | nil => simp [List.dropWhile] at h
  | cons d r ih =>
    rw [List.dropWhile] at h
    by_cases hp : p d
    · simp only [hp] at h
      exact List.mem_cons_of_mem d (ih h)
    · simpa [hp] using h

theorem mem_trimL {l : Str} {c : Char} (h : c ∈ trimL l) : c ∈ l :=
  mem_dropWhileM h

theorem mem_trimR {l : Str} {c : Char} (h : c ∈ trimR l) : c ∈ l := by
  unfold trimR at h
  rw [List.mem_reverse] at h
  simpa using mem_dropWhileM h

theorem mem_trim {l : Str} {c : Char} (h : c ∈ trim l) : c ∈ l :=
  mem_trimL (mem_trimR h)

theorem dropWhile_head_false {p : Char → Bool} {l : Str} {c : Char} {r : Str}
    (h : l.dropWhile p = c :: r) : p c = false := by
  induction l with
  | nil => simp [List.dropWhile] at h
  | cons d t ih =>
    rw [List.dropWhile] at h
    by_cases hp : p d
    · simp only [hp] at h
      exact ih h
    · simp only [Bool.not_eq_true] at hp
      simp only [hp] at h
      cases h
      exact hp

theorem dropWhile_dropWhile_self (p : Char → Bool) (l : Str) :
    (l.dropWhile p).dropWhile p = l.dropWhile p := by
  cases h : l.dropWhile p with
  | nil => simp [List.dropWhile]
  | cons c r => rw [List.dropWhile, dropWhile_head_false h]

theorem trimL_trimL (l : Str) : trimL (trimL l) = trimL l :=
  dropWhile_dropWhile_self _ _

theorem trimR_trimR (l : Str) : trimR (trimR l) = trimR l := by
  unfold trimR
  rw [List.reverse_reverse, dropWhile_dropWhile_self]

/-- `dropWhile` yields a suffix. -/
theorem dropWhile_isSuffix (p : Char → Bool) (l : Str) :
    ∃ t, t ++ l.dropWhile p = l := by
  induction l with
  | nil => exact ⟨[], rfl⟩
  | cons c r ih =>
    rw [List.dropWhile]
    by_cases hp : p c
    · obtain ⟨t, ht⟩ := ih
      exact ⟨c :: t, by simp [hp, ht]⟩
    · exact ⟨[], by simp [hp]⟩

/-- `trimR` yields a prefix. -/
theorem trimR_isPrefix (l : Str) : ∃ t, trimR l ++ t = l := by
  obtain ⟨t, ht⟩ := dropWhile_isSuffix isSpaceC l.reverse
  refine ⟨t.reverse, ?_⟩
  have := congrArg List.reverse ht
  simpa [trimR] using this

theorem trimL_trimR_of_trimL_fixed {l : Str} (h : trimL l = l) :
    trimL (trimR l) = trimR l := by
  obtain ⟨t, ht⟩ := trimR_isPrefix l
  cases hr : trimR l with
  | nil => simp [trimL, List.dropWhile]
  | cons c r =>
    rw [hr] at ht
    have hc : isSpaceC c = false := by
      have : l.dropWhile isSpaceC = l := h
      rw [← ht] at this
      cases hdw : List.dropWhile isSpaceC (c :: r ++ t) with
      | nil =>
        rw [this] at hdw
        exact absurd hdw (by simp)
      | cons d u =>
        have hd := dropWhile_head_false hdw
        rw [this] at hdw
        cases hdw
        exact hd
    rw [trimL, List.dropWhile, hc]

theorem trim_trim (l : Str) : trim (trim l) = trim l := by
  unfold trim
  rw [trimL_trimR_of_trimL_fixed (trimL_trimL l), trimR_trimR]

theorem trim_cons_space (h : Str) : trim (' ' :: h) = trim h := by
  unfold trim trimL
  rw [List.dropWhile]
  norm_num [isSpaceC]

/-- Pieces produced by the sentence splitter contain no sentence
punctuation. -/
theorem splitPunctAux_no_punct (b : Bool) (s : Str) :
    ∀ x ∈ splitPunctAux b s, ∀ c ∈ x, sentCls.contains c = false := by
  induction s generalizing b with
  | nil => intro x hx c hc; simp [splitPunctAux] at hx; simp [hx] at hc
  | cons d r ih =>
    intro x hx c hc
    simp only [splitPunctAux] at hx
    by_cases hd : sentCls.contains d
    · simp only [hd, if_true] at hx
      cases b with
      | true => exact ih true x hx c hc
      | false =>
        rcases List.mem_cons.mp hx with h | h
        · simp [h] at hc
        · exact ih true x h c hc
    · simp only [hd, if_false] at hx
      cases hsp : splitPunctAux false r with
      | nil => exact absurd hsp (splitPunctAux_ne_nil false r)
      | cons hd' tl' =>
        rw [hsp] at hx
        rcases List.mem_cons.mp hx with h | h
        · subst h
          rcases List.mem_cons.mp hc with h' | h'
          · subst h'
            simpa using hd
          · exact ih false hd' (by simp [hsp]) c h'
        · exact ih false x (by simp [hsp, h]) c hc

theorem splitPunctAux_cons_punct_true {c : Char} (hc : sentCls.contains c = true)
    (z : Str) : splitPunctAux true (c :: z) = splitPunctAux true z := by
  simp only [splitPunctAux, hc]
  rfl

theorem splitPunctAux_cons_punct_false {c : Char} (hc : sentCls.contains c = true)
    (z : Str) : splitPunctAux false (c :: z) = [] :: splitPunctAux true z := by
  simp only [splitPunctAux, hc]
  rfl

theorem splitPunctAux_cons_nopunct {c : Char} {z h : Str} {t : List Str}
    (hc : sentCls.contains c = false) (b : Bool)
    (hz : splitPunctAux false z = h :: t) :
    splitPunctAux b (c :: z) = (c :: h) :: t := by
  simp only [splitPunctAux, hc, hz]
  rfl

theorem splitPunctAux_append_nopunct {x y : Str} {h : Str} {t : List Str}
    (hx : ∀ c ∈ x, sentCls.contains c = false)
    (hy : splitPunctAux false y = h :: t) :
    splitPunctAux false (x ++ y) = (x ++ h) :: t := by
  induction x with
  | nil => simpa using hy
  | cons c x' ih =>
    have hc : sentCls.contains c = false := hx c (by simp)
    have ih' := ih (fun d hd => hx d (by simp [hd]))
    rw [List.cons_append, splitPunctAux_cons_nopunct hc false ih',
      List.cons_append]

theorem trim_nil : trim ([] : Str) = [] := rfl

theorem cleanSentences_props (s : Str) :
    ∀ x ∈ cleanSentences s,
      x ≠ [] ∧ trim x = x ∧ ∀ c ∈ x, sentCls.contains c = false := by
  intro x hx
  unfold cleanSentences at hx
  rw [List.mem_filter] at hx
  obtain ⟨hmem, hne⟩ := hx
  rw [List.mem_map] at hmem
  obtain ⟨y, hy, rfl⟩ := hmem
  refine ⟨?_, trim_trim y, fun c hc =>
    splitPunctAux_no_punct false s y hy c (mem_trim hc)⟩
  intro hcon
  rw [hcon] at hne
  simp at hne

theorem cleanSentences_join (l : List Str) (hne : l ≠ [])
    (hprops : ∀ x ∈ l,
      x ≠ [] ∧ trim x = x ∧ ∀ c ∈ x, sentCls.contains c = false) :
    cleanSentences (joinSep ". ".data l ++ ['.']) = l := by
  induction l with
  | nil => exact absurd rfl hne
  | cons x l' ih =>
    obtain ⟨hx_ne, hx_trim, hx_np⟩ := hprops x (by simp)
    have hxe : (!x.isEmpty) = true := by
      simpa [List.isEmpty_iff] using hx_ne
    cases l' with
    | nil =>
      have h1 : splitPunctAux false ['.'] = [[], []] := rfl
      have h2 := splitPunctAux_append_nopunct hx_np h1
      show cleanSentences (x ++ ['.']) = [x]
      unfold cleanSentences splitPunct
      rw [h2, List.append_nil]
      simp only [List.map_cons, List.map_nil, hx_trim, trim_nil]
      simp [List.filter_cons, hxe]
    | cons y l'' =>
      have hJ := ih (by simp) (fun z hz => hprops z (by simp [hz]))
      set J := joinSep ". ".data (y :: l'') ++ ['.'] with hJdef
      cases hsp : splitPunctAux false J with
      | nil => exact absurd hsp (splitPunctAux_ne_nil false J)
      | cons hd tl =>
        have hshape : joinSep ". ".data (x :: y :: l'') ++ ['.'] =
            x ++ ('.' :: ' ' :: J) := by
          show (x ++ ". ".data ++ joinSep ". ".data (y :: l'')) ++ ['.'] =
            x ++ ('.' :: ' ' :: J)
          simp [hJdef]
        have hsp2 : splitPunctAux false (' ' :: J) = (' ' :: hd) :: tl :=
          splitPunctAux_cons_nopunct (by decide) false hsp
        have hinner : splitPunctAux false ('.' :: ' ' :: J) =
            [] :: (' ' :: hd) :: tl := by
          rw [splitPunctAux_cons_punct_false (by decide)]
          have : splitPunctAux true (' ' :: J) = (' ' :: hd) :: tl :=
            splitPunctAux_cons_nopunct (by decide) true hsp
          rw [this]
        have houter := splitPunctAux_append_nopunct hx_np hinner
        rw [hshape]
        unfold cleanSentences splitPunct
        rw [houter, List.append_nil]
        simp only [List.map_cons, hx_trim, trim_cons_space, trim_nil]
        have hJ' : List.filter (fun z => !z.isEmpty)
            (trim hd :: List.map trim tl) = y :: l'' := by
          have h0 : cleanSentences J = y :: l'' := hJ
          unfold cleanSentences splitPunct at h0
          rw [hsp] at h0
          simpa using h0
        rw [List.filter_cons]
        simp only [hxe, if_true]
        rw [hJ']

theorem maxD_ge (len : Str) : 3 ≤ maxSentencesDoctor len := by
  unfold maxSentencesDoctor
  repeat' split
  all_goals decide

theorem maxP_ge (len : Str) : 2 ≤ maxSentencesPatient len := by
  unfold maxSentencesPatient
  repeat' split
  all_goals decide

theorem countSentences_adjust_doctor (s len : Str) :
    countSentences (adjust_summary_length s len) ≤ maxSentencesDoctor len := by
  unfold adjust_summary_length
  by_cases hlen : (cleanSentences s).length > maxSentencesDoctor len
  · simp only [hlen, if_true]
    have hmpos : 1 ≤ maxSentencesDoctor len :=
      le_trans (by norm_num) (maxD_ge len)
    have hlt : ((cleanSentences s).take (maxSentencesDoctor len)).length =
        maxSentencesDoctor len := by
      rw [List.length_take]
      omega
    have htake_ne : (cleanSentences s).take (maxSentencesDoctor len) ≠ [] := by
      intro hcon
      rw [hcon] at hlt
      simp at hlt
      omega
    rw [countSentences, cleanSentences_join _ htake_ne
      (fun x hx => cleanSentences_props s x (List.take_subset _ _ hx)), hlt]
  · simp only [hlen, if_false]
    rw [countSentences]
    omega

theorem splitPunctAux_append_dot (b : Bool) (s : Str) :
    splitPunctAux b (s ++ ['.']) = splitPunctAux b s ∨
    splitPunctAux b (s ++ ['.']) = splitPunctAux b s ++ [[]] := by
  induction s generalizing b with
  | nil =>
    cases b with
    | true => left; rfl
    | false => right; rfl
  | cons c r ih =>
    by_cases hc : sentCls.contains c
    · cases b with
      | true =>
        rw [List.cons_append, splitPunctAux_cons_punct_true hc,
          splitPunctAux_cons_punct_true hc]
        exact ih true
      | false =>
        rw [List.cons_append, splitPunctAux_cons_punct_false hc,
          splitPunctAux_cons_punct_false hc]
        rcases ih true with h | h
        · left; rw [h]
        · right; rw [h]; rfl
    · rw [Bool.not_eq_true] at hc
      cases hy : splitPunctAux false r with
      | nil => exact absurd hy (splitPunctAux_ne_nil false r)
      | cons hd tl =>
        rcases ih false with h | h
        · left
          rw [List.cons_append, splitPunctAux_cons_nopunct hc b (h.trans hy),
            splitPunctAux_cons_nopunct hc b hy]
        · right
          have h2 : splitPunctAux false (r ++ ['.']) = hd :: (tl ++ [[]]) := by
            rw [h, hy]
            rfl
          rw [List.cons_append, splitPunctAux_cons_nopunct hc b h2,
            splitPunctAux_cons_nopunct hc b hy]
          rfl

theorem cleanSentences_append_dot (s : Str) :
    cleanSentences (s ++ ['.']) = cleanSentences s := by
  unfold cleanSentences splitPunct
  rcases splitPunctAux_append_dot false s with h | h
  · rw [h]
  · rw [h, List.map_append, List.filter_append]
    simp [trim_nil]

theorem countSentences_adjust_patient (s len : Str) :
    countSentences (adjust_patient_summary s len) ≤ maxSentencesPatient len := by
  unfold adjust_patient_summary
  have hinner : ∀ s2 : Str,
      countSentences s2 ≤ maxSentencesPatient len →
      countSentences (if s2.getLastD ' ' = '.' then s2 else s2 ++ ['.']) ≤
        maxSentencesPatient len := by
    intro s2 h2
    split
    · exact h2
    · rw [countSentences, cleanSentences_append_dot]
      exact h2
  apply hinner
  by_cases hlen : (cleanSentences s).length > maxSentencesPatient len
  · simp only [hlen, if_true]
    have hmpos : 1 ≤ maxSentencesPatient len :=
      le_trans (by norm_num) (maxP_ge len)
    have hlt : ((cleanSentences s).take (maxSentencesPatient len)).length =
        maxSentencesPatient len := by
      rw [List.length_take]
      omega
    have htake_ne : (cleanSentences s).take (maxSentencesPatient len) ≠ [] := by
      intro hcon
      rw [hcon] at hlt
      simp at hlt
      omega
    rw [countSentences, cleanSentences_join _ htake_ne
      (fun x hx => cleanSentences_props s x (List.take_subset _ _ hx)), hlt]
  · simp only [hlen, if_false]
    rw [countSentences]
    omega

theorem doctorFinal_le (P len : Str) :
    countSentences (finalizeDoctor (adjust_summary_length P len)) ≤
      maxSentencesDoctor len := by
  unfold finalizeDoctor
  split
  · calc countSentences doctorPlaceholder = 1 := by decide
      _ ≤ 3 := by norm_num
      _ ≤ maxSentencesDoctor len := maxD_ge _
  · exact countSentences_adjust_doctor _ _

theorem patientFinal_le (P len : Str) :
    countSentences (finalizePatient (adjust_patient_summary P len)) ≤
      maxSentencesPatient len := by
  unfold finalizePatient
  split
  · calc countSentences patientPlaceholder = 2 := by decide
      _ ≤ maxSentencesPatient len := maxP_ge _
  · exact countSentences_adjust_patient _ _

theorem countSentences_doctor (t : Str) (o : SummaryOptions) :
    countSentences (generate_doctor_summary t o) ≤ maxSentencesDoctor o.length :=
  doctorFinal_le _ o.length

theorem countSentences_patient (t : Str) (o : SummaryOptions) :
    countSentences (generate_patient_summary t o) ≤ maxSentencesPatient o.length :=
  patientFinal_le _ o.length

/-- C4: for every input text and every option set, the sentence count of
the doctor summary is bounded by the doctor cap of the requested length
tier (3 for short, 5 for medium, 8 for long) and the sentence count of the
patient summary by the patient cap (2 for short, 4 for medium, 6 for
long). -/
theorem C4_sentence_caps :
    (∀ (t : Str) (o : SummaryOptions),
      countSentences (generate_doctor_summary t o) ≤
        maxSentencesDoctor o.length ∧
      countSentences (generate_patient_summary t o) ≤
        maxSentencesPatient o.length) ∧
    maxSentencesDoctor "short".data = 3 ∧
    maxSentencesDoctor "medium".data = 5 ∧
    maxSentencesDoctor "long".data = 8 ∧
    maxSentencesPatient "short".data = 2 ∧
    maxSentencesPatient "medium".data = 4 ∧
    maxSentencesPatient "long".data = 6 :=
  ⟨fun t o => ⟨countSentences_doctor t o, countSentences_patient t o⟩,
   by decide, by decide, by decide, by decide, by decide, by decide⟩

theorem maxD_default {l : Str} (h1 : l ≠ "short".data)
    (h2 : l ≠ "medium".data) (h3 : l ≠ "long".data) :
    maxSentencesDoctor l = 5 := by
  unfold maxSentencesDoctor
  rw [if_neg h1, if_neg h2, if_neg h3]

theorem maxP_default {l : Str} (h1 : l ≠ "short".data)
    (h2 : l ≠ "medium".data) (h3 : l ≠ "long".data) :
    maxSentencesPatient l = 4 := by
  unfold maxSentencesPatient
  rw [if_neg h1, if_neg h2, if_neg h3]

theorem adjust_summary_length_congr {l1 l2 : Str}
    (h : maxSentencesDoctor l1 = maxSentencesDoctor l2) (s : Str) :
    adjust_summary_length s l1 = adjust_summary_length s l2 := by
  unfold adjust_summary_length
  rw [h]

theorem adjust_patient_summary_congr {l1 l2 : Str}
    (h : maxSentencesPatient l1 = maxSentencesPatient l2) (s : Str) :
    adjust_patient_summary s l1 = adjust_patient_summary s l2 := by
  unfold adjust_patient_summary
  rw [h]

theorem generate_doctor_length_congr (t : Str) {l1 l2 : Str} (m p r : Bool)
    (h : maxSentencesDoctor l1 = maxSentencesDoctor l2) :
    generate_doctor_summary t ⟨l1, m, p, r⟩ =
      generate_doctor_summary t ⟨l2, m, p, r⟩ := by
  have key : ∀ P : Str,
      finalizeDoctor (adjust_summary_length P l1) =
        finalizeDoctor (adjust_summary_length P l2) := by
    intro P
    rw [adjust_summary_length_congr h]
  exact key _

theorem generate_patient_length_congr (t : Str) {l1 l2 : Str} (m p r : Bool)
    (h : maxSentencesPatient l1 = maxSentencesPatient l2) :
    generate_patient_summary t ⟨l1, m, p, r⟩ =
      generate_patient_summary t ⟨l2, m, p, r⟩ := by
  have key : ∀ P : Str,
      finalizePatient (adjust_patient_summary P l1) =
        finalizePatient (adjust_patient_summary P l2) := by
    intro P
    rw [adjust_patient_summary_congr h]
  exact key _

/-- C10: a length value outside short/medium/long is handled without
error, behaving exactly like medium: both summaries coincide with the
medium-tier output and obey the default caps 5 (doctor) and 4 (patient). -/
theorem C10_default_length :
    ∀ (t l : Str) (m p r : Bool),
      ¬(l = "short".data ∨ l = "medium".data ∨ l = "long".data) →
      generate_doctor_summary t ⟨l, m, p, r⟩ =
        generate_doctor_summary t ⟨"medium".data, m, p, r⟩ ∧
      generate_patient_summary t ⟨l, m, p, r⟩ =
        generate_patient_summary t ⟨"medium".data, m, p, r⟩ ∧
      countSentences (generate_doctor_summary t ⟨l, m, p, r⟩) ≤ 5 ∧
      countSentences (generate_patient_summary t ⟨l, m, p, r⟩) ≤ 4 := by
  intro t l m p r h
  push_neg at h
  obtain ⟨h1, h2, h3⟩ := h
  have hd : maxSentencesDoctor l = maxSentencesDoctor "medium".data := by
    rw [maxD_default h1 h2 h3]
    decide
  have hp : maxSentencesPatient l = maxSentencesPatient "medium".data := by
    rw [maxP_default h1 h2 h3]
    decide
  refine ⟨generate_doctor_length_congr t m p r hd,
    generate_patient_length_congr t m p r hp, ?_, ?_⟩
  · calc countSentences (generate_doctor_summary t ⟨l, m, p, r⟩) ≤
        maxSentencesDoctor l := countSentences_doctor t ⟨l, m, p, r⟩
      _ = 5 := maxD_default h1 h2 h3
  · calc countSentences (generate_patient_summary t ⟨l, m, p, r⟩) ≤
        maxSentencesPatient l := countSentences_patient t ⟨l, m, p, r⟩
      _ = 4 := maxP_default h1 h2 h3

/-- Witness for C10 at the length value `"tiny"`. -/
theorem C10_default_length_witness :
    ¬("tiny".data = "short".data ∨ "tiny".data = "medium".data ∨
      "tiny".data = "long".data) ∧
    (generate_doctor_summary "x".data ⟨"tiny".data, true, true, true⟩ =
       generate_doctor_summary "x".data ⟨"medium".data, true, true, true⟩ ∧
     generate_patient_summary "x".data ⟨"tiny".data, true, true, true⟩ =
       generate_patient_summary "x".data ⟨"medium".data, true, true, true⟩ ∧
     countSentences
       (generate_doctor_summary "x".data ⟨"tiny".data, true, true, true⟩) ≤ 5 ∧
     countSentences
       (generate_patient_summary "x".data ⟨"tiny".data, true, true, true⟩) ≤ 4) :=
  ⟨by decide, C10_default_length "x".data "tiny".data true true true (by decide)⟩

/-! ## Lemmas: the section extractor and its amended description -/

theorem leastFrom_eq_some {P : Nat → Bool} :
    ∀ (n i j : Nat), i ≤ j → j < i + n → P j = true →
    (∀ k, i ≤ k → k < j → P k = false) → leastFrom P i n = some j := by
  intro n
  induction n with
  | zero =>
    intro i j hij hlt _ _
    exact absurd hlt (by omega)
  | succ n ih =>
    intro i j hij hlt hP hmin
    by_cases hi : i = j
    · subst hi
      simp [leastFrom, hP]
    · have hfalse : P i = false := hmin i le_rfl (by omega)
      simp only [leastFrom, hfalse, Bool.false_eq_true, if_false]
      exact ih (i + 1) j (by omega) (by omega) hP
        (fun k hk1 hk2 => hmin k (by omega) hk2)

theorem captureUpto_spec (u : Str) :
    ∃ e, e ≤ u.length ∧ captureUpto u = u.take e ∧
      sectionBoundary (u.drop e) = true ∧
      ∀ k, k < e → sectionBoundary (u.drop k) = false := by
  induction u with
  | nil => exact ⟨0, by simp, rfl, rfl, fun k hk => absurd hk (by omega)⟩
  | cons c r ih =>
    by_cases hb : sectionBoundary (c :: r) = true
    · refine ⟨0, by simp, ?_, ?_, fun k hk => absurd hk (by omega)⟩
      · unfold captureUpto
        rw [if_pos hb]
        rfl
      · simpa using hb
    · obtain ⟨e, he, hcap, hbnd, hmin⟩ := ih
      refine ⟨e + 1, by simpa using he, ?_, ?_, ?_⟩
      · unfold captureUpto
        rw [if_neg hb, hcap]
        rfl
      · simpa using hbnd
      · intro k hk
        cases k with
        | zero =>
          simpa using Bool.not_eq_true _ |>.mp hb
        | succ j =>
          have : (c :: r).drop (j + 1) = r.drop j := rfl
          rw [this]
          exact hmin j (by omega)

theorem drop_tail_eq (tl : Str) (p : Nat) : tl.drop (p + 1) = (tl.drop p).tail := by
  induction tl generalizing p with
  | nil => simp
  | cons c r ih =>
    cases p with
    | zero => simp
    | succ q =>
      rw [List.drop_succ_cons, List.drop_succ_cons]
      exact ih q

theorem amendedBoundary_eq (tl : Str) (p : Nat) :
    amendedBoundary tl p = sectionBoundary (tl.drop p) := by
  cases hd : tl.drop p with
  | nil =>
    have h0 : tl.length - p = 0 := by
      rw [← List.length_drop, hd]
      rfl
    have hlen : tl.length ≤ p := by omega
    unfold amendedBoundary sectionBoundary
    simp [hlen]
  | cons c r =>
    have hlen : p < tl.length := by
      have hl : (tl.drop p).length = tl.length - p := List.length_drop _ _
      rw [hd] at hl
      simp at hl
      omega
    have hc : charAt tl p = some c := by
      unfold charAt
      rw [hd]
      rfl
    have hr : tl.drop (p + 1) = r := by
      rw [drop_tail_eq, hd]
      rfl
    have hlr : r.length = tl.length - (p + 1) := by
      rw [← hr, List.length_drop]
    unfold amendedBoundary
    rw [hc, hr]
    have h1 : decide (tl.length ≤ p) = false := by
      simp
      omega
    have h2 : decide (tl.length ≤ p + 1) = r.isEmpty := by
      cases hre : r with
      | nil =>
        rw [hre] at hlr
        simp at hlr
        simp
        omega
      | cons d u =>
        rw [hre] at hlr
        simp at hlr
        simp
        omega
    rw [h1, h2]
    simp [sectionBoundary]

theorem sectionFor_eq_amended (tl h : Str) :
    sectionFor tl h = sectionForAmended tl h := by
  unfold sectionFor sectionForAmended
  cases hL : leastFrom (headerOccAt tl h) 0 (tl.length + 1) with
  | none => rfl
  | some i =>
    simp only
    by_cases hcs : capStartIdx tl h i ≤ tl.length
    · obtain ⟨e₀, he₀, hcap, hbnd, hmin⟩ :=
        captureUpto_spec (tl.drop (capStartIdx tl h i))
      have hlen : (tl.drop (capStartIdx tl h i)).length =
          tl.length - capStartIdx tl h i := List.length_drop _ _
      have heb : e₀ ≤ tl.length - capStartIdx tl h i := by omega
      have hdd : ∀ k, (tl.drop (capStartIdx tl h i)).drop k =
          tl.drop (capStartIdx tl h i + k) := by
        intro k
        rw [List.drop_drop]
      have hfound : leastFrom (amendedBoundary tl) (capStartIdx tl h i)
          (tl.length + 1 - capStartIdx tl h i) =
          some (capStartIdx tl h i + e₀) := by
        refine leastFrom_eq_some _ _ _ (by omega) (by omega) ?_ ?_
        · rw [amendedBoundary_eq, ← hdd]
          exact hbnd
        · intro k hk1 hk2
          rw [amendedBoundary_eq]
          have hk : k = capStartIdx tl h i + (k - capStartIdx tl h i) := by
            omega
          rw [hk, ← hdd]
          exact hmin _ (by omega)
      rw [hfound]
      simp only [Option.getD_some]
      have he : capStartIdx tl h i + e₀ - capStartIdx tl h i = e₀ := by omega
      rw [hcap, he]
    · have hnil : tl.drop (capStartIdx tl h i) = [] :=
        List.drop_eq_nil_of_le (by omega)
      rw [hnil]
      simp [captureUpto]

/-- C5 (amended): the source's section extractor coincides, on every
input, with the amended description — each header's capture extends to the
next position where a newline, optional whitespace and a vocabulary header
follow (or to the end of text / just before a terminal newline), not to
the next bare header occurrence. -/
theorem C5_sections_amended (text : Str) :
    extract_sections text = extract_sections_amended text := by
  unfold extract_sections extract_sections_amended
  apply List.filterMap_congr
  intro h _
  rw [sectionFor_eq_amended]

/-! ## Lemmas: whitespace-only input -/

theorem isSpaceC_enum {d : Char} (h : isSpaceC d = true) :
    d = ' ' ∨ d = '\t' ∨ d = '\n' ∨ d = '\r' ∨ d = '\x0b' ∨ d = '\x0c' := by
  have h2 : ((((d = ' ' ∨ d = '\t') ∨ d = '\n') ∨ d = '\x0d') ∨ d = '\x0b') ∨
      d = '\x0c' := by
    simpa [isSpaceC] using h
  tauto

theorem spaceVals {d : Char} (h : isSpaceC d = true) :
    d.toNat = 32 ∨ d.toNat = 9 ∨ d.toNat = 10 ∨ d.toNat = 13 ∨
    d.toNat = 11 ∨ d.toNat = 12 := by
  rcases isSpaceC_enum h with h | h | h | h | h | h <;> subst h <;> decide

theorem isLetterB_bounds {c : Char} (h : isLetterB c = true) :
    (65 ≤ c.toNat ∧ c.toNat ≤ 90) ∨ (97 ≤ c.toNat ∧ c.toNat ≤ 122) := by
  simpa [isLetterB, Bool.or_eq_true, Bool.and_eq_true, decide_eq_true_eq] using h

theorem lowNat_letter {n : Nat}
    (h : (65 ≤ n ∧ n ≤ 90) ∨ (97 ≤ n ∧ n ≤ 122)) :
    97 ≤ lowNat n ∧ lowNat n ≤ 122 := by
  unfold lowNat
  split
  · next hc =>
    simp only [Bool.and_eq_true, decide_eq_true_eq] at hc
    omega
  · next hc =>
    simp only [Bool.and_eq_true, decide_eq_true_eq, not_and] at hc
    rcases h with ⟨h1, h2⟩ | ⟨h1, h2⟩
    · omega
    · omega

theorem charEqCI_letter_space {c d : Char} (hc : isLetterB c = true)
    (hd : isSpaceC d = true) : charEqCI c d = false := by
  have h1 := lowNat_letter (isLetterB_bounds hc)
  have h2 := spaceVals hd
  have h3 : lowNat d.toNat = d.toNat := by
    unfold lowNat
    split
    · next hcond =>
      simp only [Bool.and_eq_true, decide_eq_true_eq] at hcond
      omega
    · rfl
  unfold charEqCI
  rw [h3]
  simp only [beq_eq_false_iff_ne]
  omega

theorem char_ne_letter_space {c d : Char} (hc : isLetterB c = true)
    (hd : isSpaceC d = true) : c ≠ d := by
  have h1 := isLetterB_bounds hc
  have h2 := spaceVals hd
  intro h
  subst h
  omega

theorem isWordChar_space {d : Char} (hd : isSpaceC d = true) :
    isWordChar d = false := by
  rcases isSpaceC_enum hd with h | h | h | h | h | h <;> subst h <;> decide

theorem toLowerCh_space {d : Char} (hd : isSpaceC d = true) : toLowerCh d = d := by
  rcases isSpaceC_enum hd with h | h | h | h | h | h <;> subst h <;> decide

theorem toLowerS_ws {t : Str} (ht : ∀ c ∈ t, isSpaceC c = true) :
    ∀ c ∈ toLowerS t, isSpaceC c = true := by
  intro c hc
  rw [toLowerS, List.mem_map] at hc
  obtain ⟨d, hd, rfl⟩ := hc
  rw [toLowerCh_space (ht d hd)]
  exact ht d hd

theorem strStartsCI_ws {lit : Str} (hl : litHeadLetter lit = true) {s : Str}
    (hs : ∀ c ∈ s, isSpaceC c = true) : strStartsCI lit s = false := by
  cases lit with
  | nil => simp [litHeadLetter] at hl
  | cons c l =>
    cases s with
    | nil => rfl
    | cons d r =>
      have hc : isLetterB c = true := by simpa [litHeadLetter] using hl
      unfold strStartsCI
      rw [charEqCI_letter_space hc (hs d (by simp))]
      rfl

theorem strStarts_ws {lit : Str} (hl : litHeadLetter lit = true) {s : Str}
    (hs : ∀ c ∈ s, isSpaceC c = true) : strStarts lit s = false := by
  cases lit with
  | nil => simp [litHeadLetter] at hl
  | cons c l =>
    cases s with
    | nil => rfl
    | cons d r =>
      have hc : isLetterB c = true := by simpa [litHeadLetter] using hl
      unfold strStarts
      rw [decide_eq_false (char_ne_letter_space hc (hs d (by simp)))]
      rfl

theorem scanFor_ws {m : Str → Option Str}
    (hm : ∀ s, (∀ c ∈ s, isSpaceC c = true) → m s = none) :
    ∀ s, (∀ c ∈ s, isSpaceC c = true) → scanFor m s = none := by
  intro s
  induction s with
  | nil => intro _; rfl
  | cons c r ih =>
    intro hs
    unfold scanFor
    rw [hm _ hs]
    exact ih (fun d hd => hs d (by simp [hd]))

theorem scanLit_ws {lit : Str} (hl : litHeadLetter lit = true)
    (cont : Str → Option Str) (s : Str)
    (hs : ∀ c ∈ s, isSpaceC c = true) :
    scanFor (litMatcher lit cont) s = none :=
  scanFor_ws
    (fun s' hs' => by
      unfold litMatcher
      rw [strStartsCI_ws hl hs']
      rfl) s hs

theorem containsSub_ws {pat s : Str} (hp : litHeadLetter pat = true)
    (hs : ∀ c ∈ s, isSpaceC c = true) : containsSub pat s = false := by
  unfold containsSub
  rw [scanLit_ws hp _ _ hs]
  cases pat with
  | nil => simp [litHeadLetter] at hp
  | cons c l => rfl

theorem medFindall_ws (tail : Str → Option Nat) :
    ∀ (fuel : Nat) (b : Bool) (s : Str), (∀ c ∈ s, isSpaceC c = true) →
      medFindall tail fuel b s = [] := by
  intro fuel
  induction fuel with
  | zero => intro b s _; rfl
  | succ n ih =>
    intro b s hs
    cases s with
    | nil => rfl
    | cons c r =>
      have hw : isWordChar c = false := isWordChar_space (hs c (by simp))
      have hwt : (c :: r).takeWhile isWordChar = [] := by
        simp [List.takeWhile_cons, hw]
      simp only [medFindall, hwt]
      simp only [List.length_nil, ne_eq, not_true_eq_false, decide_False,
        Bool.and_false, Bool.false_eq_true, if_false]
      exact ih _ r (fun d hd => hs d (by simp [hd]))

theorem leastFrom_none {P : Nat → Bool} (h : ∀ i, P i = false) :
    ∀ n i, leastFrom P i n = none := by
  intro n
  induction n with
  | zero => intro i; rfl
  | succ n ih =>
    intro i
    unfold leastFrom
    rw [h i]
    simp only [Bool.false_eq_true, if_false]
    exact ih (i + 1)

theorem extract_sections_ws {t : Str} (ht : ∀ c ∈ t, isSpaceC c = true) :
    extract_sections t = [] := by
  unfold extract_sections
  apply List.filterMap_eq_nil_iff.mpr
  intro h hmem
  have hws_drop : ∀ i, ∀ c ∈ (toLowerS t).drop i, isSpaceC c = true :=
    fun i c hc => toLowerS_ws ht c (List.drop_subset _ _ hc)
  have hl : litHeadLetter h = true := by
    fin_cases hmem <;> decide
  have hocc : ∀ i, headerOccAt (toLowerS t) h i = false := by
    intro i
    unfold headerOccAt
    rw [strStarts_ws hl (hws_drop i)]
    simp
  have hsec : sectionFor (toLowerS t) h = none := by
    unfold sectionFor
    rw [leastFrom_none hocc]
  rw [hsec]

theorem extract_key_information_ws {t : Str}
    (ht : ∀ c ∈ t, isSpaceC c = true) :
    extract_key_information t = ⟨[], [], [], ⟨none, none, none, none⟩, []⟩ := by
  have htl := toLowerS_ws ht
  have hvital : ∀ (lit : Str) (cap : Str → Option Str),
      litHeadLetter lit = true →
      scanFor (vitalMatcher lit cap) (toLowerS t) = none := by
    intro lit cap hl
    apply scanFor_ws _ _ htl
    intro s' hs'
    unfold vitalMatcher
    rw [strStarts_ws hl hs']
    rfl
  have hcs : ∀ kw ∈ procedure_keywords,
      containsSub (toLowerS kw) (toLowerS t) = false := by
    intro kw hkw
    exact containsSub_ws (by fin_cases hkw <;> decide) htl
  have hprocs : procedure_keywords.filterMap (fun kw =>
      if containsSub (toLowerS kw) (toLowerS t) then some (pyTitle kw)
      else none) = [] := by
    apply List.filterMap_eq_nil_iff.mpr
    intro kw hkw
    rw [hcs kw hkw]
    rfl
  simp only [extract_key_information]
  rw [medFindall_ws _ _ _ _ ht, medFindall_ws _ _ _ _ ht,
    medFindall_ws _ _ _ _ ht, medFindall_ws _ _ _ _ ht, hprocs,
    hvital _ _ (by decide), hvital _ _ (by decide), hvital _ _ (by decide),
    hvital _ _ (by decide)]
  rfl

theorem extract_diagnosis_info_ws {t : Str}
    (ht : ∀ c ∈ t, isSpaceC c = true) : extract_diagnosis_info t = [] := by
  unfold extract_diagnosis_info
  rw [scanLit_ws (by decide) _ _ ht, scanLit_ws (by decide) _ _ ht,
    scanLit_ws (by decide) _ _ ht, scanLit_ws (by decide) _ _ ht]
  rfl

theorem extract_treatment_info_ws {t : Str} {ki : ExtractedInfo}
    (ht : ∀ c ∈ t, isSpaceC c = true) (hki : ki.procedures = []) :
    extract_treatment_info t ki = [] := by
  unfold extract_treatment_info
  rw [scanLit_ws (by decide) _ _ ht, scanLit_ws (by decide) _ _ ht,
    scanLit_ws (by decide) _ _ ht, hki]
  rfl

theorem extract_recommendations_ws {t : Str}
    (ht : ∀ c ∈ t, isSpaceC c = true) : extract_recommendations t = [] := by
  unfold extract_recommendations
  rw [scanLit_ws (by decide) _ _ ht, scanLit_ws (by decide) _ _ ht,
    scanLit_ws (by decide) _ _ ht]
  rfl

theorem extract_patient_reason_ws {t : Str}
    (ht : ∀ c ∈ t, isSpaceC c = true) :
    extract_patient_reason t = "You came to the hospital for medical care.".data := by
  unfold extract_patient_reason
  rw [scanLit_ws (by decide) _ _ ht, scanLit_ws (by decide) _ _ ht,
    scanLit_ws (by decide) _ _ ht]
  rfl

theorem extract_patient_next_steps_ws {t : Str}
    (ht : ∀ c ∈ t, isSpaceC c = true) :
    extract_patient_next_steps t =
      "Please follow up with your doctor as recommended.".data := by
  unfold extract_patient_next_steps
  rw [extract_recommendations_ws ht]
  rfl

theorem adjust_summary_length_nil (len : Str) :
    adjust_summary_length [] len = [] := by
  unfold adjust_summary_length
  rw [show cleanSentences [] = [] from rfl]
  simp

theorem adjust_patient_fixed {s : Str} (len : Str)
    (hc : (cleanSentences s).length ≤ 2) (hdot : s.getLastD ' ' = '.') :
    adjust_patient_summary s len = s := by
  have h2 := maxP_ge len
  simp only [adjust_patient_summary]
  rw [if_neg (show ¬((cleanSentences s).length > maxSentencesPatient len) by
    omega)]
  rw [if_pos hdot]

theorem generate_doctor_ws (t : Str) (ht : ∀ c ∈ t, isSpaceC c = true)
    (o : SummaryOptions) : generate_doctor_summary t o = doctorPlaceholder := by
  simp only [generate_doctor_summary]
  rw [extract_key_information_ws ht, extract_sections_ws ht,
    extract_diagnosis_info_ws ht, extract_treatment_info_ws ht rfl,
    extract_recommendations_ws ht]
  simp [lookupSec, vitalsNonempty, joinSep, adjust_summary_length_nil,
    finalizeDoctor]

set_option maxRecDepth 40000 in
theorem generate_patient_ws (t : Str) (ht : ∀ c ∈ t, isSpaceC c = true)
    (o : SummaryOptions) :
    generate_patient_summary t o =
      (if o.include_recommendations then
        ("You came to the hospital for medical care. " ++
         "Please follow up with your doctor as recommended.").data
       else "You came to the hospital for medical care.".data) := by
  have hd : extract_patient_diagnosis t = [] := by
    unfold extract_patient_diagnosis
    rw [extract_diagnosis_info_ws ht]
    rfl
  have htr : extract_patient_treatment t
      ⟨[], [], [], ⟨none, none, none, none⟩, []⟩ = [] := by
    unfold extract_patient_treatment
    rw [extract_treatment_info_ws ht rfl]
    rfl
  simp only [generate_patient_summary]
  rw [extract_key_information_ws ht, extract_patient_reason_ws ht, hd, htr,
    extract_patient_next_steps_ws ht]
  cases hrec : o.include_recommendations with
  | false =>
    simp only [hrec, List.isEmpty_nil, Bool.not_true, Bool.and_false,
      Bool.false_eq_true, if_false]
    suffices h : ∀ P : Str,
        P = "You came to the hospital for medical care.".data →
        finalizePatient (adjust_patient_summary (translate_for_patients P)
          o.length) =
          "You came to the hospital for medical care.".data by
      exact h _ (by decide)
    intro P hP
    rw [hP]
    rw [show translate_for_patients
        "You came to the hospital for medical care.".data =
        "You came to the hospital for medical care.".data from by decide]
    rw [adjust_patient_fixed _ (by decide) (by decide)]
    decide
  | true =>
    simp only [hrec, List.isEmpty_nil, Bool.not_true, Bool.and_false,
      Bool.false_eq_true, if_false, if_true]
    suffices h : ∀ P : Str,
        P = ("You came to the hospital for medical care. " ++
          "Please follow up with your doctor as recommended.").data →
        finalizePatient (adjust_patient_summary (translate_for_patients P)
          o.length) =
          ("You came to the hospital for medical care. " ++
           "Please follow up with your doctor as recommended.").data by
      exact h _ (by decide)
    intro P hP
    rw [hP]
    rw [show translate_for_patients
        ("You came to the hospital for medical care. " ++
         "Please follow up with your doctor as recommended.").data =
        ("You came to the hospital for medical care. " ++
         "Please follow up with your doctor as recommended.").data from by
      decide]
    rw [adjust_patient_fixed _ (by decide) (by decide)]
    decide

/-! ## Claim theorems -/

set_option maxRecDepth 100000

/-- The end-to-end input of claim C1. -/
def c1Text : Str :=
  ("Chief Complaint: chest pain\nDiagnosis: Acute myocardial infarction\n" ++
   "Medications: Aspirin 81mg daily\nFollow-up: cardiology in 1 week").data

/-- The options of claim C1: all include-flags true, medium length. -/
def c1Opts : SummaryOptions := ⟨"medium".data, true, true, true⟩

/-- Claim C1 (counterexample): on the claim's own input the patient
summary's diagnosis clause does not read "you have acute heart attack" —
the translation table's later entry `acute -> sudden` rewrites it. -/
theorem C1_counterexample :
    containsSub "you have acute heart attack".data
      (generate_patient_summary c1Text c1Opts) = false := by
  decide

/-- Claim C1 (amended): the doctor summary contains the Chief Complaint,
Diagnosis, Medications and Follow-up blocks, and the patient summary's
diagnosis clause reads "...you have sudden heart attack.". -/
theorem C1_amended :
    containsSub "**Chief Complaint**".data
      (generate_doctor_summary c1Text c1Opts) = true ∧
    containsSub "**Diagnosis**".data
      (generate_doctor_summary c1Text c1Opts) = true ∧
    containsSub "**Medications**".data
      (generate_doctor_summary c1Text c1Opts) = true ∧
    containsSub "**Follow-up**".data
      (generate_doctor_summary c1Text c1Opts) = true ∧
    containsSub "you have sudden heart attack.".data
      (generate_patient_summary c1Text c1Opts) = true :=
  ⟨by decide, by decide, by decide, by decide, by decide⟩

/-- Claim C2 (counterexample): on empty input the patient summary is not
the apology placeholder — the reason clause always falls back to a fixed
default, so the placeholder is unreachable. -/
theorem C2_counterexample :
    generate_patient_summary [] ⟨"medium".data, true, true, true⟩ ≠
      patientPlaceholder := by
  decide

/-- Claim C2 (amended): for empty or whitespace-only input and any
options, the doctor summary is the fixed placeholder, and the patient
summary is the default narrative "You came to the hospital for medical
care." followed (when include_recommendations is set) by "Please follow up
with your doctor as recommended." — never the apology placeholder. -/
theorem C2_whitespace_amended :
    ∀ (t : Str) (o : SummaryOptions), (∀ c ∈ t, isSpaceC c = true) →
      generate_doctor_summary t o = doctorPlaceholder ∧
      generate_patient_summary t o =
        (if o.include_recommendations then
          ("You came to the hospital for medical care. " ++
           "Please follow up with your doctor as recommended.").data
         else "You came to the hospital for medical care.".data) :=
  fun t o ht => ⟨generate_doctor_ws t ht o, generate_patient_ws t ht o⟩

/-- Witness for the amended C2 at the whitespace-only input `" \t "`. -/
theorem C2_whitespace_amended_witness :
    (∀ c ∈ (" \t ".data : Str), isSpaceC c = true) ∧
    (generate_doctor_summary " \t ".data ⟨"short".data, true, true, true⟩ =
       doctorPlaceholder ∧
     generate_patient_summary " \t ".data ⟨"short".data, true, true, true⟩ =
       (if (⟨"short".data, true, true, true⟩ :
            SummaryOptions).include_recommendations then
         ("You came to the hospital for medical care. " ++
          "Please follow up with your doctor as recommended.").data
        else "You came to the hospital for medical care.".data)) :=
  ⟨by decide, C2_whitespace_amended _ _ (by decide)⟩

/-- Claim C3 (code bug): clean_text is not idempotent on its own output.
The already-normalized text `"[SSN]."` (= clean_text "123-45-6789") is
mapped to `"SSN."`: the OCR-artifact filter of a second pass strips the
brackets of the PHI placeholder the first pass produced. -/
theorem C3_not_idempotent :
    clean_text "123-45-6789".data = "[SSN].".data ∧
    clean_text "[SSN].".data = "SSN.".data :=
  ⟨by decide, by decide⟩

/-- Claim C5 (counterexample): on a single-line text the code's capture
runs to the end of the text, while the claim's reading ("up to the next
occurrence of any header") would stop at the embedded `medications`
header: the two extractors disagree. -/
theorem C5_counterexample :
    extract_sections "chief complaint: pain medications: aspirin".data ≠
      extract_sections_claimed
        "chief complaint: pain medications: aspirin".data := by
  decide

/-- Claim C6 (counterexample): containing the PHI string is not enough —
in `"SSN 123-45-67891"` the SSN digits are followed by a further digit, the
trailing `\b` fails, and no `[SSN]` token is produced. -/
theorem C6_counterexample :
    containsSub "SSN 123-45-6789".data "SSN 123-45-67891".data = true ∧
    containsSub "[SSN]".data (clean_text "SSN 123-45-67891".data) = false :=
  ⟨by decide, by decide⟩

/-- Claim C6 (amended): on the texts "SSN 123-45-6789", "MRN: 12345" and
"03/14/2024" themselves, clean_text produces the [SSN], [MRN] and [DATE]
placeholders respectively. -/
theorem C6_amended :
    containsSub "[SSN]".data (clean_text "SSN 123-45-6789".data) = true ∧
    containsSub "[MRN]".data (clean_text "MRN: 12345".data) = true ∧
    containsSub "[DATE]".data (clean_text "03/14/2024".data) = true :=
  ⟨by decide, by decide, by decide⟩

/-- Claim C7: clean_text "pt c/o cp" contains "patient", "complains of"
and "chest pain" as whole words. -/
theorem C7_abbreviation_expansion :
    containsWholeWord "patient".data (clean_text "pt c/o cp".data) = true ∧
    containsWholeWord "complains of".data (clean_text "pt c/o cp".data) = true ∧
    containsWholeWord "chest pain".data (clean_text "pt c/o cp".data) = true :=
  ⟨by decide, by decide, by decide⟩

/-- Claim C8 (counterexample): a text merely containing
"Aspirin 81mg daily" need not yield "Aspirin": in "XAspirin 81mg daily"
the maximal word run captured is "XAspirin" (title-cased "Xaspirin"), so
"Aspirin" occurs zero times, not once. -/
theorem C8_counterexample :
    containsSub "Aspirin 81mg daily".data "XAspirin 81mg daily".data = true ∧
    (extract_key_information "XAspirin 81mg daily".data).medications.count
      "Aspirin".data = 0 :=
  ⟨by decide, by decide⟩

/-- Claim C8 (amended): the medication and procedure collections never
contain duplicates, and the text consisting of "Aspirin 81mg daily"
mentioned twice yields "Aspirin" exactly once. -/
theorem C8_amended :
    (∀ t : Str, (extract_key_information t).medications.Nodup ∧
      (extract_key_information t).procedures.Nodup) ∧
    (extract_key_information
      "Aspirin 81mg daily. Aspirin 81mg daily.".data).medications.count
      "Aspirin".data = 1 := by
  refine ⟨fun t => ⟨List.nodup_dedup _, List.nodup_dedup _⟩, by decide⟩

/-- Claim C9: the diagnoses and recommendations fields of
extract_key_information are always empty — no extraction pass populates
them. -/
theorem C9_reserved_fields :
    ∀ t : Str, (extract_key_information t).diagnoses = [] ∧
      (extract_key_information t).recommendations = [] :=
  fun _ => ⟨rfl, rfl⟩
